import Mathlib

/-!
Verification of the Strapi-Generator schema-to-module transform.

The definitions below are a shallow embedding of `src/generate.js`
(class `StrapiGenerator`) and of the CLI entry point `bin/index.js`.
Pure functions of the source become Lean functions; the single database
round-trip is modelled by passing the query outcome in explicitly; the
JavaScript objects used as ordered dictionaries become association
lists that preserve insertion order.
-/

namespace StrapiGen

/-! ## Name transformer

`toKebabCase(str) { return str.replace(/_/g, '-').toLowerCase(); }`
(generate.js lines 36-38).  The regex replaces each `_` character by
`-`; `toLowerCase` lowercases character by character (modelled with
`Char.toLower`, the basic-latin lowercasing). -/

def kebabChar (c : Char) : Char := if c = '_' then '-' else c

def replaceUnderscores (s : String) : String := String.mk (s.data.map kebabChar)

def jsToLowerCase (s : String) : String := String.mk (s.data.map Char.toLower)

def toKebabCase (s : String) : String := jsToLowerCase (replaceUnderscores s)

/-! ## JavaScript object property reads

A bracket read `obj[k]` on a plain object literal consults the object's
own keys first and then the prototype chain: for every property name of
`Object.prototype` the read yields the inherited value (a function, or
`Object.prototype` itself for `__proto__`), and all of these inherited
values are truthy non-strings.  Only when `k` is neither an own key nor
an `Object.prototype` property does the read yield `undefined` (falsy). -/

def objectProtoProps : List String :=
  [ "constructor", "hasOwnProperty", "isPrototypeOf", "propertyIsEnumerable",
    "toLocaleString", "toString", "valueOf", "__defineGetter__", "__defineSetter__",
    "__lookupGetter__", "__lookupSetter__", "__proto__" ]

/-- A value that a JavaScript property read can produce here: a string
stored in the object, or the truthy non-string value inherited from
`Object.prototype` under the given property name. -/
inductive JsVal where
  | str (s : String)
  | protoRef (name : String)
deriving Repr, DecidableEq

/-! ## Type mapper

`mapDataTypeToStrapi` (generate.js lines 46-60): a fixed key/value
object literal consulted by `typeMapping[dataType] || 'string'`.  The
bracket read sees the ten own keys first; failing those, any
`Object.prototype` property name yields the inherited truthy value,
which the `||` passes through unchanged; only a genuinely absent key
gives `undefined` and falls back to `'string'`.  Every stored value is
a nonempty string, hence truthy. -/

def typeMapping : List (String × String) :=
  [ ("int", "integer"), ("bigint", "biginteger"), ("varchar", "string"),
    ("text", "text"), ("datetime", "datetime"), ("date", "date"),
    ("tinyint", "boolean"), ("decimal", "float"), ("double", "float"),
    ("float", "float") ]

def mapDataTypeToStrapi (dataType : String) : JsVal :=
  match typeMapping.lookup dataType with
  | some v => JsVal.str v
  | none =>
      if dataType ∈ objectProtoProps then JsVal.protoRef dataType
      else JsVal.str "string"

/-! ## Configuration

Constructor, generate.js line 26:
`this.tablePrefix = process.env.SOURCE_DB_TABLE_PREFIX || 'tbl';`
The environment variable is either absent (`none`) or a string; the
JavaScript `||` falls back to `'tbl'` when the value is absent or the
empty string (both falsy). -/

def effectiveTablePfx (envValue : Option String) : String :=
  match envValue with
  | none => "tbl"
  | some s => if s = "" then "tbl" else s

/-! ## Schema reader

`getDatabaseSchema` (generate.js lines 67-88): one catalog query, then
the rows are folded into a plain object `schema = {}` keyed by table
name, keeping only rows whose `TABLE_NAME` starts with
`this.tablePrefix`.  The model has three layers, all from the source:

* `insertColumn`/`buildSchema`: the own-key storage of the object —
  `schema[TABLE_NAME].push(...)` appends at an existing own key, and
  `schema[TABLE_NAME] = []` creates a new own key at the end of the
  insertion order;
* `buildSchemaRun`: the faithful execution including the prototype
  chain: when `TABLE_NAME` is an `Object.prototype` property name and
  no own key exists yet, `!schema[TABLE_NAME]` is false (the inherited
  value is truthy), so the `[]` init is skipped and
  `schema[TABLE_NAME].push` throws a TypeError (the inherited value has
  no `push` method);
* `jsEntries`: the `Object.entries` enumeration order used by
  `generateModules` — array-index keys (canonical decimal strings below
  `2^32 - 1`) ascend numerically first, followed by the remaining keys
  in insertion order. -/

structure Row where
  TABLE_NAME : String
  COLUMN_NAME : String
  DATA_TYPE : String
  IS_NULLABLE : String
deriving Repr, DecidableEq

structure Column where
  name : String
  type : String
  required : Bool
deriving Repr, DecidableEq

def mkColumn (r : Row) : Column :=
  { name := r.COLUMN_NAME, type := r.DATA_TYPE, required := r.IS_NULLABLE == "NO" }

/-- JavaScript `t.startsWith(p)` on strings. -/
def startsWith (t pfx : String) : Bool := pfx.data.isPrefixOf t.data

def insertColumn (schema : List (String × List Column)) (t : String) (c : Column) :
    List (String × List Column) :=
  match schema with
  | [] => [(t, [c])]
  | (t', cs) :: rest =>
      if t' = t then (t', cs ++ [c]) :: rest else (t', cs) :: insertColumn rest t c

def schemaStep (tablePfx : String) (schema : List (String × List Column)) (r : Row) :
    List (String × List Column) :=
  if startsWith r.TABLE_NAME tablePfx then insertColumn schema r.TABLE_NAME (mkColumn r)
  else schema

def buildSchema (tablePfx : String) (rows : List Row) : List (String × List Column) :=
  rows.foldl (schemaStep tablePfx) []

/-- The keys of the schema dictionary, in insertion order. -/
def schemaKeys (schema : List (String × List Column)) : List String :=
  schema.map Prod.fst

/-- Dictionary access `schema[t]`. -/
def getTable (schema : List (String × List Column)) (t : String) : Option (List Column) :=
  match schema with
  | [] => none
  | (t', cs) :: rest => if t' = t then some cs else getTable rest t

/-- First-occurrence deduplication: the insertion order in which the
own keys of the schema object are created. -/
def dedupFirst (l : List String) : List String :=
  l.foldl (fun acc x => if x ∈ acc then acc else acc ++ [x]) []

/-- The rows of `rows` that belong to table `t`, in row order. -/
def tableRows (t : String) (rows : List Row) : List Row :=
  rows.filter (fun r => r.TABLE_NAME = t)

/-- The only runtime error this fold can raise: calling `.push` on an
inherited non-array value. -/
inductive JsError where
  | typeError
deriving Repr, DecidableEq

deriving instance DecidableEq for Except

/-- One faithful iteration of the grouping `forEach` (generate.js lines
78-86).  Reading `schema[TABLE_NAME]` with no own key present yields,
for an `Object.prototype` property name, the inherited truthy value:
the `[]` init is skipped and `.push` throws.  In every other case the
own-key update is exactly `insertColumn`. -/
def schemaStepRun (tablePfx : String) (schema : List (String × List Column)) (r : Row) :
    Except JsError (List (String × List Column)) :=
  if startsWith r.TABLE_NAME tablePfx then
    if getTable schema r.TABLE_NAME = none ∧ r.TABLE_NAME ∈ objectProtoProps then
      Except.error JsError.typeError
    else Except.ok (insertColumn schema r.TABLE_NAME (mkColumn r))
  else Except.ok schema

def buildSchemaAux (tablePfx : String) :
    List Row → List (String × List Column) → Except JsError (List (String × List Column))
  | [], schema => Except.ok schema
  | r :: rest, schema =>
      match schemaStepRun tablePfx schema r with
      | Except.error e => Except.error e
      | Except.ok schema2 => buildSchemaAux tablePfx rest schema2

/-- The faithful result of `getDatabaseSchema`'s grouping fold: either
the own-key dictionary, or the TypeError that aborts the run. -/
def buildSchemaRun (tablePfx : String) (rows : List Row) :
    Except JsError (List (String × List Column)) :=
  buildSchemaAux tablePfx rows []

/-- Canonical array-index strings: nonempty, all digits, no leading
zero (except `"0"` itself), value below `2^32 - 1`.  These are the keys
`Object.entries` reorders numerically. -/
def natOfDigits (l : List Char) : Nat :=
  l.foldl (fun n c => n * 10 + (c.toNat - 48)) 0

def isArrayIndexKey (s : String) : Bool :=
  match s.data with
  | [] => false
  | c :: rest =>
      (c :: rest).all (fun d => d.isDigit) &&
      (decide (c ≠ '0') || decide (rest = [])) &&
      decide (natOfDigits (c :: rest) < 4294967295)

def keyNum (s : String) : Nat := natOfDigits s.data

def insertNumeric (p : String × List Column) :
    List (String × List Column) → List (String × List Column)
  | [] => [p]
  | q :: qs => if keyNum p.1 ≤ keyNum q.1 then p :: q :: qs else q :: insertNumeric p qs

def sortNumeric (l : List (String × List Column)) : List (String × List Column) :=
  l.foldr insertNumeric []

/-- `Object.entries` on the schema object: array-index keys in
ascending numeric order first, then the other keys in insertion
order. -/
def jsEntries (own : List (String × List Column)) : List (String × List Column) :=
  sortNumeric (own.filter (fun p => isArrayIndexKey p.1)) ++
    own.filter (fun p => !(isArrayIndexKey p.1))

/-! ## Module emitter (pure part)

`createContentType` (generate.js lines 96-123).  The filesystem write
is plumbing; the descriptor it serializes is built by the pure code
below.  In the source, `acc[name].required = true` is only executed
when the column is required, so an attribute record carries
`required = true` exactly when the key is present in the JSON output;
the flag is modelled as a `Bool` field. -/

structure Attribute where
  type : JsVal
  required : Bool
deriving Repr, DecidableEq

structure ContentTypeInfo where
  singularName : String
  pluralName : String
  displayName : String
  description : String
deriving Repr, DecidableEq

structure ContentType where
  kind : String
  collectionName : String
  info : ContentTypeInfo
  draftAndPublish : Bool
  attributes : List (String × Attribute)
deriving Repr, DecidableEq

def excludedFields : List String :=
  ["id", "created_at", "updated_at", "published_at", "locale",
   "created_by_id", "updated_by_id", "document_id"]

/-- `singularName.charAt(0).toUpperCase() + singularName.slice(1)`
(generate.js line 110); `toUpperCase` modelled with `Char.toUpper`. -/
def capitalizeFirst (s : String) : String :=
  match s.data with
  | [] => ""
  | c :: rest => String.mk (Char.toUpper c :: rest)

/-- JavaScript object assignment `acc[name] = v`: overwrite in place if
the key exists, otherwise append in insertion order.  Modelling remark:
a JavaScript assignment at the single key `__proto__` would hit the
inherited setter and create no own key; modelling it as an ordinary key
only enlarges the key set, which every theorem below tolerates (none
asserts the presence of a key the program would drop). -/
def setAttr (acc : List (String × Attribute)) (name : String) (v : Attribute) :
    List (String × Attribute) :=
  match acc with
  | [] => [(name, v)]
  | (n, a) :: rest => if n = name then (n, v) :: rest else (n, a) :: setAttr rest name v

def attrStep (acc : List (String × Attribute)) (c : Column) : List (String × Attribute) :=
  setAttr acc c.name { type := mapDataTypeToStrapi c.type, required := c.required }

def attributesReduce (filtered : List Column) : List (String × Attribute) :=
  filtered.foldl attrStep []

def createContentType (tableName : String) (attributes : List Column) : ContentType :=
  let singularName := toKebabCase tableName
  let filteredAttributes := attributes.filter (fun attr => !(excludedFields.contains attr.name))
  { kind := "collectionType"
    collectionName := tableName
    info :=
      { singularName := singularName
        pluralName := singularName ++ "s"
        displayName := capitalizeFirst singularName
        description := "" }
    draftAndPublish := true
    attributes := attributesReduce filteredAttributes }

/-- Singular-name derivation shared by `createContentType`,
`createController`, `createService` and `createRoute` (e.g. generate.js
lines 96-98): `toKebabCase(tableName)` — the configured table prefix is
never consulted here.  `basePath` is `path.join(cwd, 'src/api', singularName)`. -/
def moduleSingularName (tableName : String) : String := toKebabCase tableName

def moduleBasePath (cwd tableName : String) : String :=
  cwd ++ "/src/api/" ++ moduleSingularName tableName

/-! ## Database round-trip control flow

`getDatabaseSchema` (generate.js lines 67-88) performs, in order:
`createConnection`; `connection.query(...)`; `connection.end()`; then
the grouping fold.  There is no `try`/`finally`: when the awaited
query rejects, the rejection propagates out of the function and the
`connection.end()` statement on the next line is never reached.  The
outcome of the single query is passed in explicitly. -/

inductive QueryOutcome where
  | success (rows : List Row)
  | failure
deriving Repr, DecidableEq

structure DbRunResult where
  /-- `some` of the grouped schema on success, `none` when the query rejected
  and the error propagated. -/
  schema : Option (List (String × List Column))
  /-- Whether `connection.end()` was executed before the function returned
  or its error propagated. -/
  connectionClosed : Bool
deriving Repr, DecidableEq

def getDatabaseSchema (tablePfx : String) (q : QueryOutcome) : DbRunResult :=
  match q with
  | .success rows => { schema := some (buildSchema tablePfx rows), connectionClosed := true }
  | .failure => { schema := none, connectionClosed := false }

/-! ## CLI entry point

`bin/index.js` lines 6-12:
`generator.generateModules().then(() => log).catch((err) => console.error('Error generating modules:', err))`.
The rejection is consumed by the `.catch` handler, which only writes to
standard error; `process.exitCode` is never assigned and no exception
escapes the handler, so the Node process exits with the default code 0
on the failure path exactly as on the success path. -/

inductive RunOutcome where
  | success
  | failure (message : String)
deriving Repr, DecidableEq

structure CliResult where
  exitCode : Nat
  stderrLines : List String
deriving Repr, DecidableEq

def cliRun (o : RunOutcome) : CliResult :=
  match o with
  | .success => { exitCode := 0, stderrLines := [] }
  | .failure msg => { exitCode := 0, stderrLines := ["Error generating modules: " ++ msg] }

/-! ## Catalog query text

generate.js lines 68-73: a template literal that splices
`this.sourceDbConfig.database` verbatim between two single-quote
characters, with no escaping and no parameter placeholder.  `sq` is
the single-quote character (codepoint 39) delimiting the SQL string
literal. -/

def sqChar : Char := Char.ofNat 39

def sq : String := String.mk [sqChar]

def queryHeadText : String :=
  "\n      SELECT TABLE_NAME, COLUMN_NAME, DATA_TYPE, IS_NULLABLE\n      FROM INFORMATION_SCHEMA.COLUMNS\n      WHERE TABLE_SCHEMA = "

def queryTailText : String := ";\n    "

def catalogQuery (database : String) : String :=
  queryHeadText ++ sq ++ database ++ sq ++ queryTailText

/-- How an SQL lexer delimits the first single-quoted string literal of
the query text: everything after the first quote character up to (not
including) the next quote character. -/
def firstQuotedLiteral (s : String) : String :=
  String.mk (((s.data.dropWhile (fun c => c ≠ sqChar)).drop 1).takeWhile (fun c => c ≠ sqChar))

/-! ## Concrete inputs used by the example-based claims -/

/-- Columns of the `tbl_user` example: `id` (int, required), `name`
(varchar, required), `created_at` (datetime, not required). -/
def c2Columns : List Column :=
  [ { name := "id", type := "int", required := true },
    { name := "name", type := "varchar", required := true },
    { name := "created_at", type := "datetime", required := false } ]

/-- A catalog row for a table that does not start with `tbl`. -/
def c3Row : Row :=
  { TABLE_NAME := "customers", COLUMN_NAME := "id", DATA_TYPE := "int", IS_NULLABLE := "NO" }

/-- Catalog rows spanning tables `tbl_a` and `other_b`. -/
def c9Rows : List Row :=
  [ { TABLE_NAME := "tbl_a", COLUMN_NAME := "x", DATA_TYPE := "int", IS_NULLABLE := "NO" },
    { TABLE_NAME := "other_b", COLUMN_NAME := "y", DATA_TYPE := "varchar", IS_NULLABLE := "YES" },
    { TABLE_NAME := "tbl_a", COLUMN_NAME := "z", DATA_TYPE := "text", IS_NULLABLE := "YES" } ]

/-- A catalog row whose table name collides with an `Object.prototype`
property: the grouping fold throws a TypeError on it. -/
def c9ProtoRow : Row :=
  { TABLE_NAME := "constructor", COLUMN_NAME := "id", DATA_TYPE := "int", IS_NULLABLE := "NO" }

/-- Catalog rows over integer-like table names, first seen in the order
`2`, `1`: `Object.entries` enumerates them numerically as `1`, `2`. -/
def c9NumRows : List Row :=
  [ { TABLE_NAME := "2", COLUMN_NAME := "a", DATA_TYPE := "int", IS_NULLABLE := "NO" },
    { TABLE_NAME := "1", COLUMN_NAME := "b", DATA_TYPE := "int", IS_NULLABLE := "NO" } ]

/-! ## Helper lemmas on characters -/

theorem toNat_ofNat_valid (n : Nat) (h : n.isValidChar) : (Char.ofNat n).toNat = n := by
  simp [Char.ofNat, h, Char.ofNatAux, Char.toNat, UInt32.toNat]

theorem toLower_eq (c : Char) :
    Char.toLower c = if c.toNat ≥ 65 ∧ c.toNat ≤ 90 then Char.ofNat (c.toNat + 32) else c := rfl

theorem toLower_toLower (c : Char) : Char.toLower (Char.toLower c) = Char.toLower c := by
  by_cases h : c.toNat ≥ 65 ∧ c.toNat ≤ 90
  · rw [toLower_eq c, if_pos h]
    have hval : (Char.ofNat (c.toNat + 32)).toNat = c.toNat + 32 :=
      toNat_ofNat_valid _ (Or.inl (by omega))
    rw [toLower_eq, hval, if_neg (by omega)]
  · rw [toLower_eq c, if_neg h, toLower_eq c, if_neg h]

theorem kebabChar_of_ne (c : Char) (h : c ≠ '_') : kebabChar c = c := by
  simp [kebabChar, h]

theorem kebabChar_ne_underscore (c : Char) : kebabChar c ≠ '_' := by
  unfold kebabChar
  by_cases h : c = '_' <;> simp [h]

theorem toLower_ne_underscore (c : Char) (h : c ≠ '_') : Char.toLower c ≠ '_' := by
  by_cases hc : c.toNat ≥ 65 ∧ c.toNat ≤ 90
  · rw [toLower_eq c, if_pos hc]
    intro heq
    have hval : (Char.ofNat (c.toNat + 32)).toNat = c.toNat + 32 :=
      toNat_ofNat_valid _ (Or.inl (by omega))
    have h95 : ('_' : Char).toNat = 95 := rfl
    rw [heq, h95] at hval
    omega
  · rw [toLower_eq c, if_neg hc]
    exact h

theorem kebabChar_toLower_kebabChar (c : Char) :
    kebabChar (Char.toLower (kebabChar c)) = Char.toLower (kebabChar c) :=
  kebabChar_of_ne _ (toLower_ne_underscore _ (kebabChar_ne_underscore c))

theorem toKebabCase_data (s : String) :
    (toKebabCase s).data = s.data.map (fun c => Char.toLower (kebabChar c)) := by
  simp [toKebabCase, jsToLowerCase, replaceUnderscores]

theorem toKebabCase_idem (s : String) : toKebabCase (toKebabCase s) = toKebabCase s := by
  apply String.ext
  rw [toKebabCase_data, toKebabCase_data, List.map_map]
  apply List.map_congr_left
  intro c _
  simp only [Function.comp]
  rw [kebabChar_toLower_kebabChar, toLower_toLower]

theorem isPrefixOf_map {l₁ l₂ : List Char} (f : Char → Char) (h : l₁.isPrefixOf l₂ = true) :
    (l₁.map f).isPrefixOf (l₂.map f) = true := by
  induction l₁ generalizing l₂ with
  | nil => simp
  | cons a as ih =>
    cases l₂ with
    | nil => simp [List.isPrefixOf] at h
    | cons b bs =>
      simp only [List.isPrefixOf, Bool.and_eq_true, beq_iff_eq] at h
      simp only [List.map_cons, List.isPrefixOf, Bool.and_eq_true, beq_iff_eq]
      exact ⟨by rw [h.1], ih h.2⟩

/-! ## Lemmas on the schema dictionary -/

theorem getTable_insertColumn_self (s : List (String × List Column)) (t : String) (c : Column) :
    getTable (insertColumn s t c) t = some (((getTable s t).getD []) ++ [c]) := by
  induction s with
  | nil => simp [insertColumn, getTable]
  | cons hd rest ih =>
    obtain ⟨t', cs⟩ := hd
    by_cases h : t' = t
    · simp [insertColumn, getTable, h]
    · simp [insertColumn, getTable, h, ih]

theorem getTable_insertColumn_ne (s : List (String × List Column)) (t t' : String) (c : Column)
    (h : t' ≠ t) : getTable (insertColumn s t c) t' = getTable s t' := by
  have hne : ¬ t = t' := fun hh => h hh.symm
  induction s with
  | nil => simp [insertColumn, getTable, hne]
  | cons hd rest ih =>
    obtain ⟨t'', cs⟩ := hd
    by_cases h2 : t'' = t
    · subst h2
      simp [insertColumn, getTable, hne]
    · simp [insertColumn, getTable, h2, ih]

theorem schemaKeys_insertColumn (s : List (String × List Column)) (t : String) (c : Column) :
    schemaKeys (insertColumn s t c) =
      if t ∈ schemaKeys s then schemaKeys s else schemaKeys s ++ [t] := by
  simp only [schemaKeys]
  induction s with
  | nil => simp [insertColumn]
  | cons hd rest ih =>
    obtain ⟨t', cs⟩ := hd
    by_cases h : t' = t
    · subst h
      simp [insertColumn, List.mem_cons]
    · have hne : ¬ t = t' := fun hh => h hh.symm
      have hins : insertColumn ((t', cs) :: rest) t c = (t', cs) :: insertColumn rest t c := by
        simp [insertColumn, h]
      rw [hins, List.map_cons, ih, List.map_cons]
      by_cases hm : t ∈ rest.map Prod.fst
      · rw [if_pos hm, if_pos (by simp [List.mem_cons, hm])]
      · rw [if_neg hm, if_neg (by simp [List.mem_cons, hm, hne])]
        simp

theorem getTable_mem_schemaKeys (s : List (String × List Column)) (t : String) :
    t ∈ schemaKeys s ↔ (getTable s t).isSome = true := by
  induction s with
  | nil => simp [schemaKeys, getTable]
  | cons hd rest ih =>
    obtain ⟨t', cs⟩ := hd
    by_cases h : t' = t
    · subst h
      simp [schemaKeys, getTable]
    · have hne : ¬ t = t' := fun hh => h hh.symm
      simp only [schemaKeys, List.map_cons, List.mem_cons, getTable, if_neg h] at ih ⊢
      rw [or_iff_right hne]
      exact ih

theorem getTable_foldl (tablePfx : String) (rows : List Row) :
    ∀ (s : List (String × List Column)) (t : String),
      getTable (rows.foldl (schemaStep tablePfx) s) t =
        if startsWith t tablePfx = true then
          (if tableRows t rows = [] then getTable s t
           else some (((getTable s t).getD []) ++ (tableRows t rows).map mkColumn))
        else getTable s t := by
  induction rows with
  | nil =>
    intro s t
    by_cases h : startsWith t tablePfx = true <;> simp [tableRows, h]
  | cons r rest ih =>
    intro s t
    by_cases hp : startsWith t tablePfx = true
    · by_cases hr : r.TABLE_NAME = t
      · have hstep : schemaStep tablePfx s r = insertColumn s t (mkColumn r) := by
          simp [schemaStep, hr, hp]
        rw [List.foldl_cons, hstep, ih]
        have htr : tableRows t (r :: rest) = r :: tableRows t rest := by
          simp [tableRows, hr]
        rw [getTable_insertColumn_self]
        by_cases he : tableRows t rest = []
        · simp [hp, he, htr]
        · simp [hp, he, htr]
      · have hs : schemaStep tablePfx s r = s ∨
            schemaStep tablePfx s r = insertColumn s r.TABLE_NAME (mkColumn r) := by
          by_cases hq : startsWith r.TABLE_NAME tablePfx = true
          · right; simp [schemaStep, hq]
          · left; simp [schemaStep, hq]
        have htr : tableRows t (r :: rest) = tableRows t rest := by
          simp [tableRows, hr]
        have hgt : getTable (schemaStep tablePfx s r) t = getTable s t := by
          rcases hs with hs | hs
          · rw [hs]
          · rw [hs, getTable_insertColumn_ne _ _ _ _ (fun hh => hr hh.symm)]
        rw [List.foldl_cons, ih, hgt, htr]
    · by_cases hr : r.TABLE_NAME = t
      · have hrp : ¬ startsWith r.TABLE_NAME tablePfx = true := by rw [hr]; exact hp
        have hs : schemaStep tablePfx s r = s := by simp [schemaStep, hrp]
        rw [List.foldl_cons, hs, ih]
        simp [hp]
      · have hgt : getTable (schemaStep tablePfx s r) t = getTable s t := by
          by_cases hq : startsWith r.TABLE_NAME tablePfx = true
          · simp only [schemaStep, hq, if_true]
            exact getTable_insertColumn_ne _ _ _ _ (fun hh => hr hh.symm)
          · simp [schemaStep, hq]
        rw [List.foldl_cons, ih, hgt]
        simp [hp]

theorem schemaKeys_foldl (tablePfx : String) (rows : List Row) :
    ∀ s : List (String × List Column),
      schemaKeys (rows.foldl (schemaStep tablePfx) s) =
        ((rows.filter (fun r => startsWith r.TABLE_NAME tablePfx)).map Row.TABLE_NAME).foldl
          (fun acc x => if x ∈ acc then acc else acc ++ [x]) (schemaKeys s) := by
  induction rows with
  | nil =>
    intro s
    simp
  | cons r rest ih =>
    intro s
    by_cases hq : startsWith r.TABLE_NAME tablePfx = true
    · have hstep : schemaStep tablePfx s r = insertColumn s r.TABLE_NAME (mkColumn r) := by
        simp [schemaStep, hq]
      rw [List.foldl_cons, hstep, ih]
      simp only [List.filter_cons, hq, if_true, List.map_cons, List.foldl_cons]
      rw [schemaKeys_insertColumn]
    · have hstep : schemaStep tablePfx s r = s := by simp [schemaStep, hq]
      rw [List.foldl_cons, hstep, ih]
      simp only [List.filter_cons, hq]
      simp

theorem schemaKeys_buildSchema (tablePfx : String) (rows : List Row) :
    schemaKeys (buildSchema tablePfx rows) =
      dedupFirst ((rows.filter (fun r => startsWith r.TABLE_NAME tablePfx)).map Row.TABLE_NAME) := by
  rw [buildSchema, schemaKeys_foldl]
  rfl

theorem tableRows_ne_nil_iff (t : String) (rows : List Row) :
    tableRows t rows ≠ [] ↔ ∃ r ∈ rows, r.TABLE_NAME = t := by
  constructor
  · intro h
    match hm : tableRows t rows with
    | [] => exact absurd hm h
    | r :: rs =>
      have : r ∈ tableRows t rows := by rw [hm]; exact List.mem_cons_self r rs
      have := List.mem_filter.mp this
      exact ⟨r, this.1, by simpa using this.2⟩
  · rintro ⟨r, hr, hname⟩ hnil
    have : r ∈ tableRows t rows := List.mem_filter.mpr ⟨hr, by simpa using hname⟩
    rw [hnil] at this
    exact absurd this (List.not_mem_nil r)

theorem getTable_buildSchema (tablePfx : String) (rows : List Row) (t : String) :
    getTable (buildSchema tablePfx rows) t =
      if startsWith t tablePfx = true ∧ tableRows t rows ≠ [] then
        some ((tableRows t rows).map mkColumn)
      else none := by
  rw [buildSchema, getTable_foldl]
  by_cases hp : startsWith t tablePfx = true
  · by_cases he : tableRows t rows = [] <;> simp [hp, he, getTable]
  · simp [hp, getTable]

theorem mem_schemaKeys_buildSchema (tablePfx : String) (rows : List Row) (t : String) :
    t ∈ schemaKeys (buildSchema tablePfx rows) ↔
      (startsWith t tablePfx = true ∧ ∃ r ∈ rows, r.TABLE_NAME = t) := by
  rw [getTable_mem_schemaKeys, getTable_buildSchema]
  by_cases hc : startsWith t tablePfx = true ∧ tableRows t rows ≠ []
  · rw [if_pos hc]
    simp only [Option.isSome_some, true_iff]
    exact ⟨hc.1, (tableRows_ne_nil_iff t rows).mp hc.2⟩
  · rw [if_neg hc]
    simp only [Option.isSome_none, Bool.false_eq_true, false_iff]
    intro hcon
    exact hc ⟨hcon.1, (tableRows_ne_nil_iff t rows).mpr hcon.2⟩

/-! ## Lemmas on the attribute accumulator -/

theorem mem_keys_setAttr (acc : List (String × Attribute)) (n : String) (v : Attribute)
    (k : String) (h : k ∈ (setAttr acc n v).map Prod.fst) :
    k ∈ acc.map Prod.fst ∨ k = n := by
  induction acc with
  | nil =>
    simp [setAttr] at h
    exact Or.inr h
  | cons hd rest ih =>
    obtain ⟨n', a⟩ := hd
    by_cases h2 : n' = n
    · rw [show setAttr ((n', a) :: rest) n v = (n', v) :: rest by simp [setAttr, h2]] at h
      simp only [List.map_cons, List.mem_cons] at h ⊢
      rcases h with h | h
      · exact Or.inl (Or.inl h)
      · exact Or.inl (Or.inr h)
    · rw [show setAttr ((n', a) :: rest) n v = (n', a) :: setAttr rest n v by
        simp [setAttr, h2]] at h
      simp only [List.map_cons, List.mem_cons] at h ⊢
      rcases h with h | h
      · exact Or.inl (Or.inl h)
      · rcases ih h with h3 | h3
        · exact Or.inl (Or.inr h3)
        · exact Or.inr h3

theorem mem_keys_foldl_attrStep (l : List Column) :
    ∀ (acc : List (String × Attribute)) (k : String),
      k ∈ (l.foldl attrStep acc).map Prod.fst →
      k ∈ acc.map Prod.fst ∨ ∃ c ∈ l, c.name = k := by
  induction l with
  | nil =>
    intro acc k h
    exact Or.inl (by simpa using h)
  | cons c cs ih =>
    intro acc k h
    rw [List.foldl_cons] at h
    rcases ih _ k h with h1 | h2
    · rcases mem_keys_setAttr _ _ _ _ h1 with ha | hb
      · exact Or.inl ha
      · exact Or.inr ⟨c, List.mem_cons_self c cs, hb.symm⟩
    · obtain ⟨c', hc', hn⟩ := h2
      exact Or.inr ⟨c', List.mem_cons_of_mem c hc', hn⟩

theorem mem_keys_attributesReduce (l : List Column) (k : String)
    (h : k ∈ (attributesReduce l).map Prod.fst) : ∃ c ∈ l, c.name = k := by
  rcases mem_keys_foldl_attrStep l [] k h with h1 | h2
  · simp at h1
  · exact h2

/-! ## Lemmas on the type-mapping lookup -/

theorem lookup_eq_none_of_not_mem_keys (m : List (String × String)) (s : String)
    (h : s ∉ m.map Prod.fst) : m.lookup s = none := by
  induction m with
  | nil => rfl
  | cons hd rest ih =>
    obtain ⟨k, v⟩ := hd
    simp only [List.map_cons, List.mem_cons, not_or] at h
    have hk : (s == k) = false := beq_eq_false_iff_ne.mpr h.1
    simp [List.lookup, hk, ih h.2]

/-! ## Lemmas on the first quoted literal of the query text -/

theorem dropWhile_append_all {p : Char → Bool} (l₁ l₂ : List Char)
    (h : ∀ c ∈ l₁, p c = true) : (l₁ ++ l₂).dropWhile p = l₂.dropWhile p := by
  induction l₁ with
  | nil => simp
  | cons a as ih =>
    have ha : p a = true := h a (List.mem_cons_self a as)
    simp only [List.cons_append, List.dropWhile_cons, ha, if_true]
    exact ih (fun c hc => h c (List.mem_cons_of_mem a hc))

theorem takeWhile_append_stop {p : Char → Bool} (l₁ : List Char) (x : Char) (r : List Char)
    (hx : p x = false) : (l₁ ++ x :: r).takeWhile p = l₁.takeWhile p := by
  induction l₁ with
  | nil => simp [List.takeWhile_cons, hx]
  | cons a as ih =>
    by_cases ha : p a = true
    · simp only [List.cons_append, List.takeWhile_cons, ha, if_true]
      rw [ih]
    · simp only [List.cons_append, List.takeWhile_cons]
      rw [Bool.not_eq_true] at ha
      simp [ha]

set_option maxRecDepth 4000 in
theorem firstQuotedLiteral_catalogQuery (db : String) :
    firstQuotedLiteral (catalogQuery db) =
      String.mk (db.data.takeWhile (fun c => c ≠ sqChar)) := by
  have hdata : (catalogQuery db).data =
      queryHeadText.data ++ sqChar :: (db.data ++ sqChar :: queryTailText.data) := by
    simp [catalogQuery, sq]
  have hhead : ∀ c ∈ queryHeadText.data, (decide (c ≠ sqChar)) = true := by decide
  rw [firstQuotedLiteral, hdata]
  rw [dropWhile_append_all _ _ hhead]
  have hq : (decide (sqChar ≠ sqChar)) = false := by decide
  rw [List.dropWhile_cons]
  simp only [hq, Bool.false_eq_true, if_false, List.drop_succ_cons, List.drop_zero]
  rw [takeWhile_append_stop _ _ _ hq]

theorem takeWhile_all {p : Char → Bool} (l : List Char) (h : ∀ c ∈ l, p c = true) :
    l.takeWhile p = l := by
  induction l with
  | nil => rfl
  | cons a as ih =>
    have ha : p a = true := h a (List.mem_cons_self a as)
    simp only [List.takeWhile_cons, ha, if_true]
    rw [ih (fun c hc => h c (List.mem_cons_of_mem a hc))]

/-! ## Lemmas on the faithful grouping run and the enumeration order -/

theorem filter_self_of_all {α : Type} (p : α → Bool) (l : List α) (h : ∀ a ∈ l, p a = true) :
    l.filter p = l := by
  induction l with
  | nil => rfl
  | cons a as ih =>
    have ha := h a (List.mem_cons_self a as)
    rw [List.filter_cons]
    simp only [ha, if_true]
    rw [ih (fun b hb => h b (List.mem_cons_of_mem a hb))]

theorem filter_nil_of_none {α : Type} (p : α → Bool) (l : List α) (h : ∀ a ∈ l, p a = false) :
    l.filter p = [] := by
  induction l with
  | nil => rfl
  | cons a as ih =>
    have ha := h a (List.mem_cons_self a as)
    rw [List.filter_cons]
    simp only [ha, Bool.false_eq_true, if_false]
    exact ih (fun b hb => h b (List.mem_cons_of_mem a hb))

theorem jsEntries_eq_self (l : List (String × List Column))
    (h : ∀ p ∈ l, isArrayIndexKey p.1 = false) : jsEntries l = l := by
  rw [jsEntries, filter_nil_of_none _ _ h,
    filter_self_of_all _ _ (fun p hp => by rw [h p hp]; rfl)]
  rfl

theorem buildSchemaAux_ok (tablePfx : String) (rows : List Row) :
    ∀ schema : List (String × List Column),
      (∀ r ∈ rows, startsWith r.TABLE_NAME tablePfx = true →
        r.TABLE_NAME ∉ objectProtoProps) →
      buildSchemaAux tablePfx rows schema =
        Except.ok (rows.foldl (schemaStep tablePfx) schema) := by
  induction rows with
  | nil =>
    intro schema h
    rfl
  | cons r rest ih =>
    intro schema h
    by_cases hq : startsWith r.TABLE_NAME tablePfx = true
    · have hnp : r.TABLE_NAME ∉ objectProtoProps := h r (List.mem_cons_self r rest) hq
      have hstep : schemaStepRun tablePfx schema r =
          Except.ok (insertColumn schema r.TABLE_NAME (mkColumn r)) := by
        rw [schemaStepRun, if_pos hq, if_neg (fun hc => hnp hc.2)]
      have hstep2 : schemaStep tablePfx schema r =
          insertColumn schema r.TABLE_NAME (mkColumn r) := by
        simp [schemaStep, hq]
      simp only [buildSchemaAux, hstep]
      rw [List.foldl_cons, hstep2]
      exact ih _ (fun r2 h2 hq2 => h r2 (List.mem_cons_of_mem r h2) hq2)
    · have hstep : schemaStepRun tablePfx schema r = Except.ok schema := by
        rw [schemaStepRun, if_neg hq]
      have hstep2 : schemaStep tablePfx schema r = schema := by
        simp [schemaStep, hq]
      simp only [buildSchemaAux, hstep]
      rw [List.foldl_cons, hstep2]
      exact ih _ (fun r2 h2 hq2 => h r2 (List.mem_cons_of_mem r h2) hq2)

theorem buildSchema_keys_not_index (tablePfx : String) (rows : List Row)
    (hidx : ∀ r ∈ rows, startsWith r.TABLE_NAME tablePfx = true →
      isArrayIndexKey r.TABLE_NAME = false) :
    ∀ p ∈ buildSchema tablePfx rows, isArrayIndexKey p.1 = false := by
  intro p hp
  have hk : p.1 ∈ schemaKeys (buildSchema tablePfx rows) :=
    List.mem_map.mpr ⟨p, hp, rfl⟩
  obtain ⟨hpfx, r, hr, hname⟩ := (mem_schemaKeys_buildSchema tablePfx rows p.1).mp hk
  have hfalse := hidx r hr (by rw [hname]; exact hpfx)
  rw [← hname]
  exact hfalse

/-! ## Claims -/

/-- C1 counterexample: with prefix `tbl_`, the table `tbl_product` yields
singular name `tbl-product`, not `product` — the prefix is not stripped
before the kebab-case transform. -/
theorem C1_counterexample :
    (createContentType "tbl_product" []).info.singularName = "tbl-product" ∧
    (createContentType "tbl_product" []).info.singularName ≠ "product" := by
  decide

/-- C1 (amended): for every table name that starts with the configured
prefix, the derived singular name is the kebab-case transform of the whole
table name — no prefix stripping happens, so the kebab-cased prefix
remains a prefix of the singular name. -/
theorem C1_singular_name (pfx t : String) (h : startsWith t pfx = true) :
    moduleSingularName t = toKebabCase t ∧
    (createContentType t []).info.singularName = toKebabCase t ∧
    startsWith (moduleSingularName t) (toKebabCase pfx) = true := by
  refine ⟨rfl, rfl, ?_⟩
  rw [startsWith] at h ⊢
  simp only [moduleSingularName]
  rw [toKebabCase_data, toKebabCase_data]
  exact isPrefixOf_map _ h

/-- C1 witness: the amended statement at `tbl_product` with prefix `tbl_`. -/
theorem C1_singular_name_witness :
    moduleSingularName "tbl_product" = toKebabCase "tbl_product" ∧
    (createContentType "tbl_product" []).info.singularName = toKebabCase "tbl_product" ∧
    startsWith (moduleSingularName "tbl_product") (toKebabCase "tbl_") = true :=
  C1_singular_name "tbl_" "tbl_product" (by decide)

/-- C2 counterexample: for table `tbl_user` the emitted `info.pluralName`
is `tbl-users` (singular name `tbl-user` plus `s`), not `users`. -/
theorem C2_counterexample :
    (createContentType "tbl_user" c2Columns).info.pluralName ≠ "users" := by
  decide

/-- C2 (amended): for table `tbl_user` with columns id/name/created_at,
the emitted descriptor has exactly the attribute `name` (type string,
required true), `collectionName` `tbl_user`, and `info.pluralName`
`tbl-users`. -/
theorem C2_content_type :
    (createContentType "tbl_user" c2Columns).attributes =
      [("name", { type := JsVal.str "string", required := true })] ∧
    (createContentType "tbl_user" c2Columns).collectionName = "tbl_user" ∧
    (createContentType "tbl_user" c2Columns).info.pluralName = "tbl-users" := by
  decide

/-- C3 counterexample: with `SOURCE_DB_TABLE_PREFIX` unset the effective
prefix is `tbl`, not empty, and a table named `customers` is excluded
from the schema map rather than included. -/
theorem C3_counterexample :
    effectiveTablePfx none ≠ "" ∧
    buildSchema (effectiveTablePfx none) [c3Row] = [] := by
  decide

/-- C3 (amended): when the configuration key is unset or the empty string,
the effective table prefix is `tbl` (the JavaScript `||` fallback), and
the schema map then contains exactly the tables whose name starts with
`tbl`. -/
theorem C3_default_pfx :
    effectiveTablePfx none = "tbl" ∧ effectiveTablePfx (some "") = "tbl" ∧
    ∀ (rows : List Row) (t : String),
      t ∈ schemaKeys (buildSchema (effectiveTablePfx none) rows) ↔
        (startsWith t "tbl" = true ∧ ∃ r ∈ rows, r.TABLE_NAME = t) := by
  refine ⟨rfl, rfl, ?_⟩
  intro rows t
  exact mem_schemaKeys_buildSchema "tbl" rows t

/-- C4 counterexample: when the catalog query fails, `getDatabaseSchema`
propagates the error without executing `connection.end()` — the
connection is not closed on that exit path. -/
theorem C4_counterexample :
    (getDatabaseSchema "tbl" QueryOutcome.failure).connectionClosed = false := by
  decide

/-- C4 (amended): the connection is closed on the successful exit path,
but on query failure the error propagates with the connection left
open (no try/finally in the source). -/
theorem C4_connection (tablePfx : String) (rows : List Row) :
    (getDatabaseSchema tablePfx (QueryOutcome.success rows)).connectionClosed = true ∧
    (getDatabaseSchema tablePfx QueryOutcome.failure).connectionClosed = false :=
  ⟨rfl, rfl⟩

/-- C5 counterexample: a failed generation run still exits with code 0 —
the `.catch` handler in `bin/index.js` only logs the error and never sets
a non-zero process exit code. -/
theorem C5_counterexample :
    (cliRun (RunOutcome.failure "db down")).exitCode = 0 := by
  decide

/-- C5 (amended): the process exit code is 0 on both the success and the
failure path; a failure is reported only as a line on standard error. -/
theorem C5_exit_code (o : RunOutcome) :
    (cliRun o).exitCode = 0 ∧
    ∀ m, (cliRun (RunOutcome.failure m)).stderrLines = ["Error generating modules: " ++ m] := by
  constructor
  · cases o <;> rfl
  · intro m
    rfl

/-- C6 counterexample: at the input `constructor` the bracket read
yields the inherited `Object.prototype.constructor`, a truthy
non-string, which the `|| 'string'` fallback passes through: the
result is not `"string"`, refuting the universal fallback clause. -/
theorem C6_counterexample :
    mapDataTypeToStrapi "constructor" = JsVal.protoRef "constructor" ∧
    mapDataTypeToStrapi "constructor" ≠ JsVal.str "string" := by
  decide

/-- C6 (amended): `mapDataTypeToStrapi` is total and deterministic: the
ten supported MySQL type names map to their documented Strapi types;
every other input that is not an `Object.prototype` property name
yields `"string"`; at an `Object.prototype` property name the read
returns the inherited truthy non-string value unchanged. -/
theorem C6_mapType_total :
    (mapDataTypeToStrapi "int" = JsVal.str "integer" ∧
     mapDataTypeToStrapi "bigint" = JsVal.str "biginteger" ∧
     mapDataTypeToStrapi "varchar" = JsVal.str "string" ∧
     mapDataTypeToStrapi "text" = JsVal.str "text" ∧
     mapDataTypeToStrapi "datetime" = JsVal.str "datetime" ∧
     mapDataTypeToStrapi "date" = JsVal.str "date" ∧
     mapDataTypeToStrapi "tinyint" = JsVal.str "boolean" ∧
     mapDataTypeToStrapi "decimal" = JsVal.str "float" ∧
     mapDataTypeToStrapi "double" = JsVal.str "float" ∧
     mapDataTypeToStrapi "float" = JsVal.str "float") ∧
    (∀ s ∈ objectProtoProps, mapDataTypeToStrapi s = JsVal.protoRef s) ∧
    ∀ s : String, s ∉ typeMapping.map Prod.fst → s ∉ objectProtoProps →
      mapDataTypeToStrapi s = JsVal.str "string" := by
  refine ⟨by decide, by decide, ?_⟩
  intro s hs hp
  simp only [mapDataTypeToStrapi]
  rw [lookup_eq_none_of_not_mem_keys _ _ hs]
  simp [hp]

/-- C6 witness: the unmapped, non-prototype type name `blob` falls back
to `"string"`. -/
theorem C6_mapType_total_witness : mapDataTypeToStrapi "blob" = JsVal.str "string" :=
  C6_mapType_total.2.2 "blob" (by decide) (by decide)

/-- C7: every key of the emitted attributes mapping is the name of one of
the input columns and lies outside the fixed exclusion set. -/
theorem C7_attribute_keys (tableName : String) (attrs : List Column) (k : String)
    (h : k ∈ (createContentType tableName attrs).attributes.map Prod.fst) :
    (∃ c ∈ attrs, c.name = k) ∧ k ∉ excludedFields := by
  have h' : k ∈ (attributesReduce
      (attrs.filter (fun attr => !(excludedFields.contains attr.name)))).map Prod.fst := h
  rcases mem_keys_attributesReduce _ _ h' with ⟨c, hc, hn⟩
  have hcf := List.mem_filter.mp hc
  refine ⟨⟨c, hcf.1, hn⟩, ?_⟩
  rw [← hn]
  have h2 := hcf.2
  simp only [Bool.not_eq_eq_eq_not, Bool.not_true] at h2
  simpa using h2

/-- C7 witness: the key `name` of the `tbl_user` example is a column name
outside the exclusion set. -/
theorem C7_attribute_keys_witness :
    (∃ c ∈ c2Columns, c.name = "name") ∧ "name" ∉ excludedFields :=
  C7_attribute_keys "tbl_user" c2Columns "name" (by decide)

/-- C8: `toKebabCase` returns its argument with every underscore replaced
by a hyphen and every character lowercased, and applying it twice equals
applying it once. -/
theorem C8_toKebabCase_shape_and_idem (s : String) :
    toKebabCase s = String.mk (s.data.map (fun c => Char.toLower (if c = '_' then '-' else c))) ∧
    toKebabCase (toKebabCase s) = toKebabCase s := by
  constructor
  · apply String.ext
    rw [toKebabCase_data]
    rfl
  · exact toKebabCase_idem s

/-- C9 counterexample: the claim fails as a universal statement over all
rows and prefixes.  A row over table `constructor` with the empty
prefix makes the grouping fold throw a TypeError instead of returning a
map, and integer-like table names first seen in the order 2, 1 are
enumerated numerically as 1, 2 — not in first-occurrence order. -/
theorem C9_counterexample :
    buildSchemaRun "" [c9ProtoRow] = Except.error JsError.typeError ∧
    (jsEntries (buildSchema "" c9NumRows)).map Prod.fst = ["1", "2"] ∧
    dedupFirst ((c9NumRows.filter
      (fun r => startsWith r.TABLE_NAME "")).map Row.TABLE_NAME) = ["2", "1"] ∧
    (jsEntries (buildSchema "" c9NumRows)).map Prod.fst ≠
      dedupFirst ((c9NumRows.filter
        (fun r => startsWith r.TABLE_NAME "")).map Row.TABLE_NAME) := by
  decide

/-- C9 (amended): for every sequence of catalog rows and every prefix
such that no prefix-matching table name is an `Object.prototype`
property name or an array-index string, the grouping fold completes
without throwing, `Object.entries` preserves the insertion order, the
keys are exactly the prefix-matching table names in first-occurrence
order, each key maps to that table's rows in first-seen order, and on
rows spanning `tbl_a` and `other_b` with prefix `tbl_` only `tbl_a` is
kept. -/
theorem C9_read_schema (tablePfx : String) (rows : List Row)
    (hproto : ∀ r ∈ rows, startsWith r.TABLE_NAME tablePfx = true →
      r.TABLE_NAME ∉ objectProtoProps)
    (hidx : ∀ r ∈ rows, startsWith r.TABLE_NAME tablePfx = true →
      isArrayIndexKey r.TABLE_NAME = false) :
    buildSchemaRun tablePfx rows = Except.ok (buildSchema tablePfx rows) ∧
    jsEntries (buildSchema tablePfx rows) = buildSchema tablePfx rows ∧
    (∀ t, t ∈ schemaKeys (buildSchema tablePfx rows) ↔
        (startsWith t tablePfx = true ∧ ∃ r ∈ rows, r.TABLE_NAME = t)) ∧
    (∀ t, t ∈ schemaKeys (buildSchema tablePfx rows) →
        getTable (buildSchema tablePfx rows) t = some ((tableRows t rows).map mkColumn)) ∧
    schemaKeys (buildSchema tablePfx rows) =
      dedupFirst ((rows.filter (fun r => startsWith r.TABLE_NAME tablePfx)).map Row.TABLE_NAME) ∧
    buildSchemaRun "tbl_" c9Rows =
      Except.ok [("tbl_a", [{ name := "x", type := "int", required := true },
                  { name := "z", type := "text", required := false }])] := by
  refine ⟨buildSchemaAux_ok tablePfx rows [] hproto,
    jsEntries_eq_self _ (buildSchema_keys_not_index tablePfx rows hidx),
    fun t => mem_schemaKeys_buildSchema tablePfx rows t, ?_,
    schemaKeys_buildSchema tablePfx rows, by decide⟩
  intro t ht
  rw [getTable_buildSchema]
  have hmem := (mem_schemaKeys_buildSchema tablePfx rows t).mp ht
  rw [if_pos ⟨hmem.1, (tableRows_ne_nil_iff t rows).mpr hmem.2⟩]

/-- C9 witness: the amended statement exercised on the concrete rows —
the key `tbl_a` maps to its two rows in first-seen order. -/
theorem C9_read_schema_witness :
    getTable (buildSchema "tbl_" c9Rows) "tbl_a" =
      some ((tableRows "tbl_a" c9Rows).map mkColumn) :=
  (C9_read_schema "tbl_" c9Rows (by decide) (by decide)).2.2.2.1 "tbl_a" (by decide)

/-- C10: the catalog query splices the database name verbatim between
single quotes with no escaping; a name free of quote characters is
matched literally as the SQL string literal, while a name containing a
quote terminates the literal early, changing the syntactic structure of
the query. -/
theorem C10_query_splice (db : String) :
    catalogQuery db = queryHeadText ++ sq ++ db ++ sq ++ queryTailText ∧
    (sqChar ∉ db.data → firstQuotedLiteral (catalogQuery db) = db) ∧
    (sqChar ∈ db.data → firstQuotedLiteral (catalogQuery db) ≠ db) := by
  refine ⟨rfl, ?_, ?_⟩
  · intro h
    rw [firstQuotedLiteral_catalogQuery]
    apply String.ext
    simp only
    exact takeWhile_all _ (fun c hc => by
      simp only [decide_eq_true_eq]
      intro heq
      exact h (heq ▸ hc))
  · intro h heq
    have hdata : db.data.takeWhile (fun c => c ≠ sqChar) = db.data := by
      have := congrArg String.data (firstQuotedLiteral_catalogQuery db ▸ heq)
      simpa using this
    have := List.mem_takeWhile_imp (l := db.data) (p := fun c => decide (c ≠ sqChar))
      (hdata ▸ h)
    simp at this

/-- C10 witness: the name `restaurant` is matched literally, while a name
containing a quote character is not. -/
theorem C10_query_splice_witness :
    firstQuotedLiteral (catalogQuery "restaurant") = "restaurant" ∧
    firstQuotedLiteral (catalogQuery ("a" ++ sq ++ "b")) ≠ ("a" ++ sq ++ "b") :=
  ⟨(C10_query_splice "restaurant").2.1 (by decide),
   (C10_query_splice ("a" ++ sq ++ "b")).2.2 (by decide)⟩

end StrapiGen
